import Mathlib

/-!
Verification of `gpx-interpolate.py` (Wikinaut/gpx-interpolate).

The Python source operates on a dictionary with parallel float lists
`lat`, `lon`, `ele`, `tstamp` (the latter two possibly `None`) plus a
time-zone field.  We embed it over the real numbers: a float list
becomes `List ℝ`, an optional channel becomes `Option (List ℝ)`, and
Python truthiness of a channel (`None` and `[]` are falsy) becomes
`chPresent`.  Floating-point arithmetic is idealised as exact real
arithmetic.  The time-zone descriptor is never used by any modelled
computation and is omitted.  In-bounds list accesses `l[i]` become
`l.getD i 0`; all theorems carry the track-validity hypotheses (equal
channel lengths, non-empty track) under which the Python code indexes
in bounds.
-/

namespace GPX

open Classical

/-- Track data: parallel channels, mirroring the `GPXData` dict of the
source (`lat`, `lon` always lists; `ele`, `tstamp` optional). -/
structure GPXData where
  lat : List ℝ
  lon : List ℝ
  ele : Option (List ℝ)
  tstamp : Option (List ℝ)

/-- Python truthiness of an optional channel: `None` and `[]` are falsy. -/
def chPresent : Option (List ℝ) → Bool
  | none => false
  | some l => !l.isEmpty

/-- The list a present channel holds (`[]` when absent). -/
def chList (o : Option (List ℝ)) : List ℝ := o.getD []

/-- Source global `EARTH_RADIUS = 6371e3` meters. -/
noncomputable def EARTH_RADIUS : ℝ := 6371000

/-- Source global `EPS = 1e-6` seconds. -/
noncomputable def EPS : ℝ := 1 / 1000000

/-- `np.radians`: degrees to radians. -/
noncomputable def radians (x : ℝ) : ℝ := x * (Real.pi / 180)

/-- The quantity under the square root in the haversine formula of
`gpx_calculate_distance`:
`sin(dlat/2)^2 + cos(lat1) cos(lat2) sin(dlon/2)^2` (angles in radians). -/
noncomputable def havTerm (lat1 lon1 lat2 lon2 : ℝ) : ℝ :=
  Real.sin ((radians lat2 - radians lat1) / 2) ^ 2 +
    Real.cos (radians lat1) * Real.cos (radians lat2) *
      Real.sin ((radians lon2 - radians lon1) / 2) ^ 2

/-- Great-circle distance of the source:
`EARTH_RADIUS * (2 * arcsin (sqrt havTerm))`. -/
noncomputable def haversine (lat1 lon1 lat2 lon2 : ℝ) : ℝ :=
  EARTH_RADIUS * (2 * Real.arcsin (Real.sqrt (havTerm lat1 lon1 lat2 lon2)))

/-- Unit vector on the sphere for a (lat, lon) pair in degrees; used only
in proofs (the zero set of `haversine` is exactly the diagonal of this map). -/
noncomputable def unitVec (lat lon : ℝ) : ℝ × ℝ × ℝ :=
  (Real.cos (radians lat) * Real.cos (radians lon),
   Real.cos (radians lat) * Real.sin (radians lon),
   Real.sin (radians lat))

/-- Unit vector of track point `i`; proof-side abbreviation. -/
noncomputable def pointVec (g : GPXData) (i : ℕ) : ℝ × ℝ × ℝ :=
  unitVec (g.lat.getD i 0) (g.lon.getD i 0)

/-- Distance written by iteration `i` of the loop in
`gpx_calculate_distance`: the haversine distance from point `i` to point
`i+1`, combined with the elevation delta when `use_ele` and the elevation
channel is truthy (`if gpx_data['ele'] and use_ele`). -/
noncomputable def segDist (g : GPXData) (use_ele : Bool) (i : ℕ) : ℝ :=
  let dist_latlon := haversine (g.lat.getD i 0) (g.lon.getD i 0)
    (g.lat.getD (i + 1) 0) (g.lon.getD (i + 1) 0)
  if chPresent g.ele && use_ele then
    Real.sqrt (dist_latlon ^ 2 +
      ((chList g.ele).getD (i + 1) 0 - (chList g.ele).getD i 0) ^ 2)
  else dist_latlon

/-- `gpx_calculate_distance`: starts from `np.zeros(len(lat))` and runs
`for i in range(len(gpx_dist)-1): gpx_dist[i+1] = ...`, modelled as a fold
of in-place `set` operations. -/
noncomputable def gpx_calculate_distance (g : GPXData) (use_ele : Bool) : List ℝ :=
  (List.range (g.lat.length - 1)).foldl
    (fun acc i => acc.set (i + 1) (segDist g use_ele i))
    (List.replicate g.lat.length 0)

/-- `np.cumsum`: partial sums, same length as the input. -/
noncomputable def cumsum (l : List ℝ) : List ℝ :=
  (List.range l.length).map (fun i => (l.take (i + 1)).sum)

/-- `np.nonzero(gpx_dist)[0]`: indices of the nonzero entries, ascending. -/
noncomputable def nonzeroIndices (l : List ℝ) : List ℕ :=
  (List.range l.length).filter (fun i => decide (l.getD i 0 ≠ 0))

/-- `gpx_remove_duplicates`: keeps index 0 plus the indices at nonzero
distance (computed without elevation) from their predecessor; identity
short-circuit when no index is dropped; absent channels are set to `None`. -/
noncomputable def gpx_remove_duplicates (g : GPXData) : GPXData :=
  let gpx_dist := gpx_calculate_distance g false
  let i_dist := 0 :: nonzeroIndices gpx_dist
  if i_dist.length = gpx_dist.length then g
  else
    { lat := i_dist.map (fun i => g.lat.getD i 0),
      lon := i_dist.map (fun i => g.lon.getD i 0),
      ele := if chPresent g.ele then
          some (i_dist.map (fun i => (chList g.ele).getD i 0)) else none,
      tstamp := if chPresent g.tstamp then
          some (i_dist.map (fun i => (chList g.tstamp).getD i 0)) else none }

/-- Cubic Hermite basis evaluation on the knot interval `[x0, x1]` with
values `y0, y1` and tangents `m0, m1`, at query point `q`. -/
noncomputable def hermite (x0 x1 y0 y1 m0 m1 q : ℝ) : ℝ :=
  let h := x1 - x0
  let t := (q - x0) / h
  (2 * t ^ 3 - 3 * t ^ 2 + 1) * y0 + (t ^ 3 - 2 * t ^ 2 + t) * h * m0 +
    (-2 * t ^ 3 + 3 * t ^ 2) * y1 + (t ^ 3 - t ^ 2) * h * m1

/-- Index of the knot interval enclosing a query point: the number of
knots after the first that lie at or below the query, clipped to the last
interval (searchsorted on a sorted axis). -/
noncomputable def intervalIndex (xs : List ℝ) (q : ℝ) : ℕ :=
  min (xs.length - 2) ((xs.drop 1).countP (fun z => decide (z ≤ q)))

/-- Modelled from the spec: `scipy.interpolate.pchip_interpolate` is an
external library routine, not part of this repository.  Tangent at knot
`i` of the PCHIP interpolant: a weighted harmonic mean of the adjacent
secant slopes at interior knots, zero when the adjacent secants do not
have the same strict sign, and a clipped one-sided formula at the two
endpoints; with exactly two knots the secant slope is used. -/
noncomputable def pchipTangent (xs ys : List ℝ) (i : ℕ) : ℝ :=
  let m := xs.length
  let h := fun j => xs.getD (j + 1) 0 - xs.getD j 0
  let sec := fun j => (ys.getD (j + 1) 0 - ys.getD j 0) / h j
  if m ≤ 2 then sec 0
  else if i = 0 then
    let d := ((2 * h 0 + h 1) * sec 0 - h 0 * sec 1) / (h 0 + h 1)
    if d * sec 0 ≤ 0 then 0
    else if sec 0 * sec 1 < 0 ∧ 3 * |sec 0| < |d| then 3 * sec 0 else d
  else if i + 1 = m then
    let d := ((2 * h (m - 2) + h (m - 3)) * sec (m - 2) - h (m - 2) * sec (m - 3)) /
      (h (m - 3) + h (m - 2))
    if d * sec (m - 2) ≤ 0 then 0
    else if sec (m - 2) * sec (m - 3) < 0 ∧ 3 * |sec (m - 2)| < |d| then
      3 * sec (m - 2)
    else d
  else if sec (i - 1) * sec i ≤ 0 then 0
  else
    let w1 := 2 * h i + h (i - 1)
    let w2 := h i + 2 * h (i - 1)
    (w1 + w2) / (w1 / sec (i - 1) + w2 / sec i)

/-- Modelled from the spec: evaluation of the PCHIP interpolant of
`(xs, ys)` at one query point, by locating the enclosing knot interval
and evaluating the local Hermite cubic there. -/
noncomputable def pchipEval (xs ys : List ℝ) (q : ℝ) : ℝ :=
  let i := intervalIndex xs q
  hermite (xs.getD i 0) (xs.getD (i + 1) 0) (ys.getD i 0) (ys.getD (i + 1) 0)
    (pchipTangent xs ys i) (pchipTangent xs ys (i + 1)) q

/-- Modelled from the spec: `scipy.interpolate.pchip_interpolate` with
`axis=1` fits the shared axis `xs` per row of `ys` and evaluates each row
at every query point. -/
noncomputable def pchip_interpolate (xs : List ℝ) (ys : List (List ℝ))
    (qs : List ℝ) : List (List ℝ) :=
  ys.map (fun row => qs.map (fun q => pchipEval xs row q))

/-- `np.linspace a b num` with `endpoint=True`. -/
noncomputable def linspace (a b : ℝ) (num : ℕ) : List ℝ :=
  (List.range num).map (fun (i : ℕ) => a + (b - a) * (i : ℝ) / ((num : ℝ) - 1))

/-- The local `xi` of `gpx_interpolate`: the cumulative with-elevation
arc length of the duplicate-removed track. -/
noncomputable def interpKnots (g : GPXData) : List ℝ :=
  cumsum (gpx_calculate_distance (gpx_remove_duplicates g) true)

/-- The local `yi` of `gpx_interpolate`: the row stack of the truthy
channels of the duplicate-removed track, in the fixed order
lat, lon, ele, tstamp. -/
noncomputable def interpRows (g : GPXData) : List (List ℝ) :=
  (if !(gpx_remove_duplicates g).lat.isEmpty then [(gpx_remove_duplicates g).lat]
    else []) ++
  (if !(gpx_remove_duplicates g).lon.isEmpty then [(gpx_remove_duplicates g).lon]
    else []) ++
  (if chPresent (gpx_remove_duplicates g).ele then
    [chList (gpx_remove_duplicates g).ele] else []) ++
  (if chPresent (gpx_remove_duplicates g).tstamp then
    [chList (gpx_remove_duplicates g).tstamp] else [])

/-- The local `num` of `gpx_interpolate` after the defaulting line:
the requested point count, or `ceil(xi[-1]/distance)` when absent. -/
noncomputable def interpNum (g : GPXData) (distance : ℝ) (num : Option ℤ) : ℤ :=
  num.getD ⌈(interpKnots g).getD ((interpKnots g).length - 1) 0 / distance⌉

/-- The local `x` of `gpx_interpolate`: `np.linspace(xi[0], xi[-1], num)`. -/
noncomputable def interpQueries (g : GPXData) (distance : ℝ) (num : Option ℤ) :
    List ℝ :=
  linspace ((interpKnots g).getD 0 0)
    ((interpKnots g).getD ((interpKnots g).length - 1) 0)
    (interpNum g distance num).toNat

/-- `gpx_interpolate`: all-empty short-circuit, duplicate removal,
arc-length axis `xi = cumsum dist`, row stack of the truthy channels,
`num` defaulting to `ceil(xi[-1]/distance)`, evenly spaced queries, PCHIP
evaluation and channel reassembly (absent channels of the input stay
`None` in the output; the timestamp row is `y[-1]`). -/
noncomputable def gpx_interpolate (g : GPXData) (distance : ℝ) (num : Option ℤ) :
    GPXData :=
  if g.lat.isEmpty && g.lon.isEmpty && !chPresent g.ele && !chPresent g.tstamp then g
  else
    let y := pchip_interpolate (interpKnots g) (interpRows g)
      (interpQueries g distance num)
    { lat := y.getD 0 [],
      lon := y.getD 1 [],
      ele := if chPresent g.ele then some (y.getD 2 []) else none,
      tstamp := if chPresent g.tstamp then some (y.getD (y.length - 1) []) else none }

/-- `gpx_calculate_speed`: distance with elevation, time deltas
`np.diff(tstamp, prepend=tstamp[0])` (so delta 0 is 0), deltas below
`EPS` marked NaN and the resulting NaN speeds forced to 0 by
`np.nan_to_num`. -/
noncomputable def gpx_calculate_speed (g : GPXData) : List ℝ :=
  let gpx_dist := gpx_calculate_distance g true
  let ts := chList g.tstamp
  let dts := (List.range ts.length).map
    (fun i => if i = 0 then (0 : ℝ) else ts.getD i 0 - ts.getD (i - 1) 0)
  (List.range ts.length).map
    (fun i => if dts.getD i 0 < EPS then 0 else gpx_dist.getD i 0 / dts.getD i 0)

/-- The `ValueError` message raised by `gpx_write`. -/
def missingTstampMsg : String := "tstamp data is missing from gpx_data"

/-- One serialized track point of the output file written by `gpx_write`. -/
structure OutPoint where
  lat : ℝ
  lon : ℝ
  ele : Option ℝ
  time : Option ℝ
  speed : Option ℝ

/-- `gpx_write`: raises `ValueError` before building or writing anything
when speed is requested without a truthy timestamp channel; otherwise
serializes every point (file output is represented by the returned point
list). -/
noncomputable def gpx_write (g : GPXData) (write_speed : Bool) :
    Except String (List OutPoint) :=
  if write_speed && !chPresent g.tstamp then Except.error missingTstampMsg
  else
    let gpx_speed := gpx_calculate_speed g
    Except.ok ((List.range g.lat.length).map (fun i =>
      { lat := g.lat.getD i 0,
        lon := g.lon.getD i 0,
        ele := if chPresent g.ele then some ((chList g.ele).getD i 0) else none,
        time := if chPresent g.tstamp then some ((chList g.tstamp).getD i 0) else none,
        speed := if write_speed then some (gpx_speed.getD i 0) else none }))

/-- The retiming loops of `main`:
`for i in range(count): ts[i+1] = ts[i] + delta(i+1)` with sequential
in-place updates. -/
noncomputable def retimeLoop (ts : List ℝ) (delta : ℕ → ℝ) (count : ℕ) : List ℝ :=
  (List.range count).foldl
    (fun acc i => acc.set (i + 1) (acc.getD i 0 + delta (i + 1))) ts

/-- The begin-time block of `main`: when a begin time is supplied, add
`begintime - ts[0]` to every timestamp. -/
noncomputable def beginShift (ts : List ℝ) (begintime : Option ℝ) : List ℝ :=
  match begintime with
  | some b => ts.map (fun t => t + (b - ts.getD 0 0))
  | none => ts

/-- The constant-velocity block of `main`: when a velocity is supplied and
positive (`if args.velocity and args.velocity > 0.0`), rewrite
`ts[i+1] = ts[i] + dist[i+1]/v` for `i` in `range(len(lat)-1)`. -/
noncomputable def velocityRetime (ts : List ℝ) (latlen : ℕ) (gpx_dist : List ℝ)
    (velocity : Option ℝ) : List ℝ :=
  match velocity with
  | some v =>
    if 0 < v then retimeLoop ts (fun i => gpx_dist.getD i 0 / v) (latlen - 1)
    else ts
  | none => ts

/-- The constant-interval block of `main`: when an interval is supplied and
positive, rewrite `ts[i+1] = ts[i] + dt` for `i` in `range(len(lat)-1)`. -/
noncomputable def intervalRetime (ts : List ℝ) (latlen : ℕ)
    (intervaltime : Option ℝ) : List ℝ :=
  match intervaltime with
  | some d => if 0 < d then retimeLoop ts (fun _ => d) (latlen - 1) else ts
  | none => ts

/-- The timestamp adjustments of `main`, in source order: begin-time shift,
then constant-velocity retiming, then constant-interval retiming, each
overwriting the previous result.  `latlen` is `len(gpx_data['lat'])`,
which drives the loop bounds. -/
noncomputable def mainRetime (ts : List ℝ) (latlen : ℕ) (gpx_dist : List ℝ)
    (begintime velocity intervaltime : Option ℝ) : List ℝ :=
  intervalRetime
    (velocityRetime (beginShift ts begintime) latlen gpx_dist velocity)
    latlen intervaltime

/-- The per-file data flow of `main`: duplicate removal, interpolation of
the deduplicated track, distance of the raw track, then the timestamp
adjustments mutating only the raw track's timestamp channel (used for the
console summary), and finally `gpx_write` of the interpolated track.
Returns the written output and the adjusted summary track. -/
noncomputable def mainFlow (g : GPXData) (distance : ℝ) (num : Option ℤ)
    (begintime velocity intervaltime : Option ℝ) (write_speed : Bool) :
    Except String (List OutPoint) × GPXData :=
  let gpx_data_nodup := gpx_remove_duplicates g
  let gpx_data_interp := gpx_interpolate gpx_data_nodup distance num
  let gpx_dist := gpx_calculate_distance g true
  let newTs := g.tstamp.map
    (fun ts => mainRetime ts g.lat.length gpx_dist begintime velocity intervaltime)
  let summary : GPXData := { g with tstamp := newTs }
  (gpx_write gpx_data_interp write_speed, summary)

/-! ### Basic list lemmas for the imperative loops -/

theorem getD_set (l : List ℝ) (i j : ℕ) (a : ℝ) :
    (l.set i a).getD j 0 = if i = j ∧ i < l.length then a else l.getD j 0 := by
  rw [List.getD_eq_getElem?_getD, List.getElem?_set, List.getD_eq_getElem?_getD]
  by_cases h1 : i = j
  · subst h1
    by_cases h2 : i < l.length
    · simp [h2]
    · rw [if_pos rfl, if_neg h2, if_neg (fun hc => h2 hc.2),
        List.getElem?_eq_none (by omega)]
  · rw [if_neg h1, if_neg (fun hc => h1 hc.1)]

theorem getD_replicate (n j : ℕ) : (List.replicate n (0 : ℝ)).getD j 0 = 0 := by
  rw [List.getD_eq_getElem?_getD]
  by_cases h : j < n
  · simp [List.getElem?_replicate, h]
  · rw [List.getElem?_eq_none (by simpa using h)]
    rfl

theorem foldl_set_length (f : ℕ → ℝ) (k : ℕ) (l : List ℝ) :
    ((List.range k).foldl (fun acc i => acc.set (i + 1) (f i)) l).length = l.length := by
  induction k with
  | zero => rfl
  | succ k ih =>
    rw [List.range_succ, List.foldl_append, List.foldl_cons, List.foldl_nil,
      List.length_set, ih]

theorem foldl_set_getD (f : ℕ → ℝ) (k : ℕ) (l : List ℝ) (j : ℕ) :
    ((List.range k).foldl (fun acc i => acc.set (i + 1) (f i)) l).getD j 0 =
      if 1 ≤ j ∧ j ≤ k ∧ j < l.length then f (j - 1) else l.getD j 0 := by
  induction k with
  | zero =>
    rw [List.range_zero, List.foldl_nil, if_neg (by omega)]
  | succ k ih =>
    rw [List.range_succ, List.foldl_append, List.foldl_cons, List.foldl_nil,
      getD_set, foldl_set_length, ih]
    by_cases hj : k + 1 = j ∧ k + 1 < l.length
    · rw [if_pos hj]
      have : 1 ≤ j ∧ j ≤ k + 1 ∧ j < l.length := by omega
      rw [if_pos this]
      have : j - 1 = k := by omega
      rw [this]
    · rw [if_neg hj]
      by_cases hc : 1 ≤ j ∧ j ≤ k ∧ j < l.length
      · rw [if_pos hc, if_pos (by omega)]
      · rw [if_neg hc, if_neg (by omega)]

/-! ### Characterization of `gpx_calculate_distance` -/

theorem gpx_calculate_distance_length (g : GPXData) (b : Bool) :
    (gpx_calculate_distance g b).length = g.lat.length := by
  unfold gpx_calculate_distance
  rw [foldl_set_length, List.length_replicate]

theorem gpx_calculate_distance_getD (g : GPXData) (b : Bool) (j : ℕ) :
    (gpx_calculate_distance g b).getD j 0 =
      if 1 ≤ j ∧ j < g.lat.length then segDist g b (j - 1) else 0 := by
  unfold gpx_calculate_distance
  rw [foldl_set_getD, List.length_replicate]
  by_cases hc : 1 ≤ j ∧ j < g.lat.length
  · rw [if_pos (by omega), if_pos hc]
  · rw [if_neg (by omega), if_neg hc, getD_replicate]

/-! ### Non-negativity -/

theorem haversine_nonneg (a b c d : ℝ) : 0 ≤ haversine a b c d := by
  unfold haversine EARTH_RADIUS
  have h1 : 0 ≤ Real.arcsin (Real.sqrt (havTerm a b c d)) :=
    Real.arcsin_nonneg.2 (Real.sqrt_nonneg _)
  nlinarith

theorem segDist_nonneg (g : GPXData) (b : Bool) (i : ℕ) : 0 ≤ segDist g b i := by
  unfold segDist
  by_cases h : chPresent g.ele && b
  · rw [if_pos h]
    exact Real.sqrt_nonneg _
  · rw [if_neg h]
    exact haversine_nonneg _ _ _ _

theorem gpx_calculate_distance_getD_nonneg (g : GPXData) (b : Bool) (j : ℕ) :
    0 ≤ (gpx_calculate_distance g b).getD j 0 := by
  rw [gpx_calculate_distance_getD]
  by_cases hc : 1 ≤ j ∧ j < g.lat.length
  · rw [if_pos hc]
    exact segDist_nonneg g b _
  · rw [if_neg hc]

/-! ### `cumsum` lemmas -/

theorem cumsum_length (l : List ℝ) : (cumsum l).length = l.length := by
  simp [cumsum]

theorem cumsum_getD (l : List ℝ) (i : ℕ) (h : i < l.length) :
    (cumsum l).getD i 0 = (l.take (i + 1)).sum := by
  unfold cumsum
  have h2 : i < (List.map (fun i => (l.take (i + 1)).sum) (List.range l.length)).length := by
    simpa using h
  rw [List.getD_eq_getElem _ _ h2, List.getElem_map, List.getElem_range]

/-! ### Claims C1 and C2 -/

/-- C1: `gpx_calculate_distance` returns a list of the track's length whose
entry 0 is 0 and whose entry `i+1` is the haversine great-circle distance
from point `i` to point `i+1`, combined with the elevation delta as
`sqrt(d_latlon^2 + d_ele^2)` exactly when `use_ele` is set and the
elevation channel is present, and the plain surface distance otherwise. -/
theorem claim_C1 (g : GPXData) (use_ele : Bool) :
    (gpx_calculate_distance g use_ele).length = g.lat.length ∧
    (0 < g.lat.length → (gpx_calculate_distance g use_ele).getD 0 0 = 0) ∧
    (∀ i : ℕ, i + 1 < g.lat.length →
      (gpx_calculate_distance g use_ele).getD (i + 1) 0 =
        (if chPresent g.ele && use_ele then
          Real.sqrt ((haversine (g.lat.getD i 0) (g.lon.getD i 0)
              (g.lat.getD (i + 1) 0) (g.lon.getD (i + 1) 0)) ^ 2 +
            ((chList g.ele).getD (i + 1) 0 - (chList g.ele).getD i 0) ^ 2)
        else haversine (g.lat.getD i 0) (g.lon.getD i 0)
          (g.lat.getD (i + 1) 0) (g.lon.getD (i + 1) 0))) := by
  refine ⟨gpx_calculate_distance_length g use_ele, ?_, ?_⟩
  · intro _
    rw [gpx_calculate_distance_getD]
    simp
  · intro i hi
    rw [gpx_calculate_distance_getD, if_pos (by omega)]
    simp only [Nat.add_sub_cancel]
    rfl

/-- Witness for C1 at a concrete two-point track with elevation. -/
theorem claim_C1_witness :
    0 < (GPXData.mk [0, 0] [0, 90] (some [3, 7]) none).lat.length ∧
    (gpx_calculate_distance (GPXData.mk [0, 0] [0, 90] (some [3, 7]) none)
      true).getD 0 0 = 0 :=
  ⟨by simp, (claim_C1 (GPXData.mk [0, 0] [0, 90] (some [3, 7]) none) true).2.1
    (by simp)⟩

/-- C2: every per-segment distance is non-negative, so the cumulative sum
(the arc-length axis `np.cumsum` built in `gpx_interpolate`) is
non-decreasing, and for a non-empty track its first entry is 0. -/
theorem claim_C2 (g : GPXData) (use_ele : Bool) :
    (∀ x ∈ gpx_calculate_distance g use_ele, 0 ≤ x) ∧
    List.Chain' (· ≤ ·) (cumsum (gpx_calculate_distance g use_ele)) ∧
    (0 < g.lat.length → (cumsum (gpx_calculate_distance g use_ele)).getD 0 0 = 0) := by
  refine ⟨?_, ?_, ?_⟩
  · intro x hx
    obtain ⟨⟨n, hn⟩, rfl⟩ := List.mem_iff_get.1 hx
    have := gpx_calculate_distance_getD_nonneg g use_ele n
    rwa [List.getD_eq_getElem _ _ hn] at this
  · rw [List.chain'_iff_get]
    intro i hi
    have hlen : (cumsum (gpx_calculate_distance g use_ele)).length =
        (gpx_calculate_distance g use_ele).length := cumsum_length _
    have hi1 : i + 1 < (gpx_calculate_distance g use_ele).length := by omega
    have hi0 : i < (gpx_calculate_distance g use_ele).length := by omega
    have hci : i < (cumsum (gpx_calculate_distance g use_ele)).length := by omega
    have hci1 : i + 1 < (cumsum (gpx_calculate_distance g use_ele)).length := by omega
    simp only [List.get_eq_getElem]
    rw [← List.getD_eq_getElem _ 0 hci, ← List.getD_eq_getElem _ 0 hci1,
      cumsum_getD _ _ hi0, cumsum_getD _ _ hi1,
      List.sum_take_succ _ (i + 1) hi1]
    have := gpx_calculate_distance_getD_nonneg g use_ele (i + 1)
    rw [List.getD_eq_getElem _ _ hi1] at this
    linarith
  · intro hn
    have h0 : 0 < (gpx_calculate_distance g use_ele).length := by
      rw [gpx_calculate_distance_length]; exact hn
    rw [cumsum_getD _ _ h0, List.sum_take_succ _ 0 h0, List.take_zero,
      List.sum_nil, zero_add, ← List.getD_eq_getElem _ 0 h0,
      gpx_calculate_distance_getD]
    simp

/-! ### The zero set of the haversine distance

`haversine p q = 0` holds exactly when `p` and `q` map to the same unit
vector on the sphere; in particular "is at distance zero from" is an
equivalence relation on points, which drives the idempotence of
`gpx_remove_duplicates`. -/

theorem sin_half_sq (x : ℝ) : Real.sin (x / 2) ^ 2 = (1 - Real.cos x) / 2 := by
  rw [Real.sin_sq_eq_half_sub]
  have h2 : 2 * (x / 2) = x := by ring
  rw [h2]
  ring

theorem havTerm_eq (a b c d : ℝ) :
    havTerm a b c d = (1 - (Real.sin (radians a) * Real.sin (radians c) +
      Real.cos (radians a) * Real.cos (radians c) *
        Real.cos (radians d - radians b))) / 2 := by
  unfold havTerm
  rw [sin_half_sq, sin_half_sq, Real.cos_sub (radians c) (radians a)]
  ring

theorem dot_eq (a b c d : ℝ) :
    Real.sin (radians a) * Real.sin (radians c) +
      Real.cos (radians a) * Real.cos (radians c) * Real.cos (radians d - radians b) =
    (unitVec a b).1 * (unitVec c d).1 + (unitVec a b).2.1 * (unitVec c d).2.1 +
      (unitVec a b).2.2 * (unitVec c d).2.2 := by
  unfold unitVec
  simp only
  rw [Real.cos_sub]
  ring

theorem unitVec_norm (a b : ℝ) :
    (unitVec a b).1 ^ 2 + (unitVec a b).2.1 ^ 2 + (unitVec a b).2.2 ^ 2 = 1 := by
  unfold unitVec
  simp only
  have h1 := Real.sin_sq_add_cos_sq (radians a)
  have h3 := Real.sin_sq_add_cos_sq (radians b)
  linear_combination (Real.cos (radians a)) ^ 2 * h3 + h1

theorem havTerm_nonneg (a b c d : ℝ) : 0 ≤ havTerm a b c d := by
  rw [havTerm_eq, dot_eq]
  nlinarith [sq_nonneg ((unitVec a b).1 - (unitVec c d).1),
    sq_nonneg ((unitVec a b).2.1 - (unitVec c d).2.1),
    sq_nonneg ((unitVec a b).2.2 - (unitVec c d).2.2),
    unitVec_norm a b, unitVec_norm c d]

theorem havTerm_eq_zero_iff (a b c d : ℝ) :
    havTerm a b c d = 0 ↔ unitVec a b = unitVec c d := by
  rw [havTerm_eq, dot_eq]
  constructor
  · intro h
    have h1 : ((unitVec a b).1 - (unitVec c d).1) ^ 2 +
        ((unitVec a b).2.1 - (unitVec c d).2.1) ^ 2 +
        ((unitVec a b).2.2 - (unitVec c d).2.2) ^ 2 = 0 := by
      nlinarith [unitVec_norm a b, unitVec_norm c d]
    have e1 : (unitVec a b).1 = (unitVec c d).1 := by
      nlinarith [sq_nonneg ((unitVec a b).1 - (unitVec c d).1),
        sq_nonneg ((unitVec a b).2.1 - (unitVec c d).2.1),
        sq_nonneg ((unitVec a b).2.2 - (unitVec c d).2.2)]
    have e2 : (unitVec a b).2.1 = (unitVec c d).2.1 := by
      nlinarith [sq_nonneg ((unitVec a b).1 - (unitVec c d).1),
        sq_nonneg ((unitVec a b).2.1 - (unitVec c d).2.1),
        sq_nonneg ((unitVec a b).2.2 - (unitVec c d).2.2)]
    have e3 : (unitVec a b).2.2 = (unitVec c d).2.2 := by
      nlinarith [sq_nonneg ((unitVec a b).1 - (unitVec c d).1),
        sq_nonneg ((unitVec a b).2.1 - (unitVec c d).2.1),
        sq_nonneg ((unitVec a b).2.2 - (unitVec c d).2.2)]
    exact Prod.ext e1 (Prod.ext e2 e3)
  · intro h
    rw [h]
    linear_combination (-1 / 2 : ℝ) * unitVec_norm c d

theorem haversine_eq_zero_iff (a b c d : ℝ) :
    haversine a b c d = 0 ↔ havTerm a b c d = 0 := by
  unfold haversine
  constructor
  · intro h
    have hR : EARTH_RADIUS ≠ 0 := by unfold EARTH_RADIUS; norm_num
    rcases mul_eq_zero.1 h with h1 | h1
    · exact absurd h1 hR
    · rcases mul_eq_zero.1 h1 with h2 | h2
      · norm_num at h2
      · have h3 : Real.sqrt (havTerm a b c d) = 0 := Real.arcsin_eq_zero_iff.1 h2
        have h4 : havTerm a b c d ≤ 0 := Real.sqrt_eq_zero'.1 h3
        exact le_antisymm h4 (havTerm_nonneg a b c d)
  · intro h
    rw [h, Real.sqrt_zero, Real.arcsin_zero]
    ring

theorem segDist_false (g : GPXData) (i : ℕ) :
    segDist g false i = haversine (g.lat.getD i 0) (g.lon.getD i 0)
      (g.lat.getD (i + 1) 0) (g.lon.getD (i + 1) 0) := by
  simp [segDist]

/-! ### `nonzeroIndices` lemmas -/

theorem mem_nonzeroIndices {l : List ℝ} {i : ℕ} :
    i ∈ nonzeroIndices l ↔ i < l.length ∧ l.getD i 0 ≠ 0 := by
  unfold nonzeroIndices
  rw [List.mem_filter, List.mem_range, decide_eq_true_eq]

theorem nonzeroIndices_sorted (l : List ℝ) :
    List.Pairwise (· < ·) (nonzeroIndices l) :=
  List.Pairwise.sublist (List.filter_sublist _) (List.pairwise_lt_range _)

theorem nonzeroIndices_pos (g : GPXData) (b : Bool) {i : ℕ}
    (h : i ∈ nonzeroIndices (gpx_calculate_distance g b)) : 1 ≤ i := by
  rcases mem_nonzeroIndices.1 h with ⟨_, hne⟩
  by_contra hlt
  have hi0 : i = 0 := by omega
  subst hi0
  apply hne
  rw [gpx_calculate_distance_getD]
  simp

theorem nonzeroIndices_congr_one_le (l : List ℝ) (h0 : l.getD 0 0 = 0)
    (hall : ∀ i, 1 ≤ i → i < l.length → l.getD i 0 ≠ 0) :
    nonzeroIndices l = (List.range l.length).filter (fun i => decide (1 ≤ i)) := by
  unfold nonzeroIndices
  apply List.filter_congr
  intro i hi
  rw [List.mem_range] at hi
  by_cases h1 : 1 ≤ i
  · rw [decide_eq_true (hall i h1 hi), decide_eq_true h1]
  · have hi0 : i = 0 := by omega
    subst hi0
    rw [decide_eq_false (by simpa using h0), decide_eq_false h1]

theorem filter_range_succ_one_le (n : ℕ) :
    (List.range (n + 1)).filter (fun i => decide (1 ≤ i)) =
      List.map Nat.succ (List.range n) := by
  rw [List.range_succ_eq_map]
  rw [List.filter_cons_of_neg (by simp)]
  apply List.filter_eq_self.2
  intro a ha
  rcases List.mem_map.1 ha with ⟨m, _, rfl⟩
  exact decide_eq_true (by omega)

theorem length_filter_range_one_le (n : ℕ) :
    ((List.range n).filter (fun i => decide (1 ≤ i))).length = n - 1 := by
  cases n with
  | zero => rfl
  | succ n =>
    rw [filter_range_succ_one_le, List.length_map, List.length_range]
    omega

/-! ### Runs of duplicate points carry the same unit vector -/

theorem zeroRun_pointVec (g : GPXData) (a : ℕ) :
    ∀ j, a ≤ j → j < g.lat.length →
      (∀ m, a < m → m ≤ j → (gpx_calculate_distance g false).getD m 0 = 0) →
      pointVec g a = pointVec g j := by
  intro j
  induction j with
  | zero =>
    intro haj _ _
    have : a = 0 := by omega
    rw [this]
  | succ j ih =>
    intro haj hjn hz
    rcases Nat.lt_or_ge a (j + 1) with hlt | hge
    · have haj' : a ≤ j := by omega
      have hstep : (gpx_calculate_distance g false).getD (j + 1) 0 = 0 :=
        hz (j + 1) (by omega) (by omega)
      rw [gpx_calculate_distance_getD, if_pos (by omega)] at hstep
      simp only [Nat.add_sub_cancel] at hstep
      rw [segDist_false] at hstep
      have hj1 : pointVec g j = pointVec g (j + 1) := by
        have := (haversine_eq_zero_iff _ _ _ _).1 hstep
        exact (havTerm_eq_zero_iff _ _ _ _).1 this
      have hprev : pointVec g a = pointVec g j :=
        ih haj' (by omega) (fun m hm1 hm2 => hz m hm1 (by omega))
      exact hprev.trans hj1
    · have : a = j + 1 := by omega
      rw [this]

/-! ### Sorted index lists -/

theorem sorted_getD_lt (I : List ℕ) (hsort : List.Pairwise (· < ·) I) (k : ℕ)
    (hk : k + 1 < I.length) : I.getD k 0 < I.getD (k + 1) 0 := by
  have hky : k < I.length := by omega
  have h := List.pairwise_iff_get.1 hsort ⟨k, hky⟩ ⟨k + 1, hk⟩
    (Fin.mk_lt_mk.2 (Nat.lt_succ_self k))
  rw [List.getD_eq_getElem _ _ hky, List.getD_eq_getElem _ _ hk]
  simpa [List.get_eq_getElem] using h

theorem sorted_consec_not_mem (I : List ℕ) (hsort : List.Pairwise (· < ·) I)
    (k : ℕ) (hk : k + 1 < I.length) (m : ℕ)
    (h1 : I.getD k 0 < m) (h2 : m < I.getD (k + 1) 0) : m ∉ I := by
  intro hmem
  obtain ⟨⟨t, ht⟩, htm⟩ := List.mem_iff_get.1 hmem
  have hky : k < I.length := by omega
  have hpg := List.pairwise_iff_get.1 hsort
  have ek : I.getD k 0 = I.get ⟨k, hky⟩ := by
    rw [List.getD_eq_getElem _ _ hky, List.get_eq_getElem]
  have ek1 : I.getD (k + 1) 0 = I.get ⟨k + 1, hk⟩ := by
    rw [List.getD_eq_getElem _ _ hk, List.get_eq_getElem]
  rcases lt_trichotomy t k with h | h | h
  · have := hpg ⟨t, ht⟩ ⟨k, hky⟩ (Fin.mk_lt_mk.2 h)
    rw [htm, ← ek] at this
    omega
  · subst h
    rw [htm] at ek
    omega
  · rcases Nat.lt_or_ge t (k + 2) with h' | h'
    · have : t = k + 1 := by omega
      subst this
      rw [htm] at ek1
      omega
    · have := hpg ⟨k + 1, hk⟩ ⟨t, ht⟩ (Fin.mk_lt_mk.2 (by omega))
      rw [htm, ← ek1] at this
      omega

theorem dedupIdx_sorted (g : GPXData) :
    List.Pairwise (· < ·) (0 :: nonzeroIndices (gpx_calculate_distance g false)) :=
  List.pairwise_cons.2
    ⟨fun _ hx => nonzeroIndices_pos g false hx, nonzeroIndices_sorted _⟩

theorem getD_map_nat (I : List ℕ) (f : ℕ → ℝ) (t : ℕ) (ht : t < I.length) :
    (I.map f).getD t 0 = f (I.getD t 0) := by
  rw [List.getD_eq_getElem _ _ (by simpa using ht), List.getElem_map,
    List.getD_eq_getElem _ _ ht]

theorem map_getD_range (l : List ℝ) :
    (List.range l.length).map (fun i => l.getD i 0) = l := by
  apply List.ext_getElem
  · simp
  · intro i h1 h2
    rw [List.getElem_map, List.getElem_range, List.getD_eq_getElem _ _ h2]

theorem absent_eq_none {o : Option (List ℝ)} {n : ℕ}
    (hv : ∀ l, o = some l → l.length = n) (hn : 1 ≤ n)
    (h : chPresent o = false) : o = none := by
  cases o with
  | none => rfl
  | some l =>
    cases l with
    | nil =>
      have := hv [] rfl
      simp at this
      omega
    | cons a t => simp [chPresent] at h

/-! ### Structure of `gpx_remove_duplicates` -/

theorem gpx_remove_duplicates_ite (g : GPXData) :
    gpx_remove_duplicates g =
      if (0 :: nonzeroIndices (gpx_calculate_distance g false)).length =
          (gpx_calculate_distance g false).length then g
      else
        { lat := (0 :: nonzeroIndices (gpx_calculate_distance g false)).map
            (fun i => g.lat.getD i 0),
          lon := (0 :: nonzeroIndices (gpx_calculate_distance g false)).map
            (fun i => g.lon.getD i 0),
          ele := if chPresent g.ele then
              some ((0 :: nonzeroIndices (gpx_calculate_distance g false)).map
                (fun i => (chList g.ele).getD i 0)) else none,
          tstamp := if chPresent g.tstamp then
              some ((0 :: nonzeroIndices (gpx_calculate_distance g false)).map
                (fun i => (chList g.tstamp).getD i 0)) else none } := rfl

/-- Consecutive retained indices of the deduplication point to distinct
unit vectors: the zero-distance run between them transports the unit
vector of the left endpoint to the predecessor of the right endpoint,
whose distance to the right endpoint is nonzero. -/
theorem dedup_consec_ne (g : GPXData) (k : ℕ)
    (hk : k + 1 < (0 :: nonzeroIndices (gpx_calculate_distance g false)).length) :
    pointVec g ((0 :: nonzeroIndices (gpx_calculate_distance g false)).getD k 0) ≠
      pointVec g ((0 :: nonzeroIndices (gpx_calculate_distance g false)).getD (k + 1) 0) := by
  have hDl := gpx_calculate_distance_length g false
  have hkNZ : k < (nonzeroIndices (gpx_calculate_distance g false)).length := by
    rw [List.length_cons] at hk
    omega
  have hbmem : (0 :: nonzeroIndices (gpx_calculate_distance g false)).getD (k + 1) 0 ∈
      nonzeroIndices (gpx_calculate_distance g false) := by
    rw [List.getD_cons_succ, List.getD_eq_getElem _ _ hkNZ]
    exact List.getElem_mem _
  obtain ⟨hblen, hbne⟩ := mem_nonzeroIndices.1 hbmem
  have hb1 : 1 ≤ (0 :: nonzeroIndices (gpx_calculate_distance g false)).getD (k + 1) 0 :=
    nonzeroIndices_pos g false hbmem
  have hab : (0 :: nonzeroIndices (gpx_calculate_distance g false)).getD k 0 <
      (0 :: nonzeroIndices (gpx_calculate_distance g false)).getD (k + 1) 0 :=
    sorted_getD_lt _ (dedupIdx_sorted g) k hk
  have hgap : ∀ m, (0 :: nonzeroIndices (gpx_calculate_distance g false)).getD k 0 < m →
      m < (0 :: nonzeroIndices (gpx_calculate_distance g false)).getD (k + 1) 0 →
      (gpx_calculate_distance g false).getD m 0 = 0 := by
    intro m hm1 hm2
    have hnotmem : m ∉ (0 :: nonzeroIndices (gpx_calculate_distance g false)) :=
      sorted_consec_not_mem _ (dedupIdx_sorted g) k hk m hm1 hm2
    by_contra hne
    apply hnotmem
    apply List.mem_cons_of_mem
    exact mem_nonzeroIndices.2 ⟨by omega, hne⟩
  intro heq
  have hchain : pointVec g ((0 :: nonzeroIndices (gpx_calculate_distance g false)).getD k 0) =
      pointVec g ((0 :: nonzeroIndices (gpx_calculate_distance g false)).getD (k + 1) 0 - 1) := by
    apply zeroRun_pointVec g _ _ (by omega) (by omega)
    intro m hm1 hm2
    exact hgap m hm1 (by omega)
  apply hbne
  rw [gpx_calculate_distance_getD, if_pos (by omega)]
  rw [segDist_false]
  have hsub : (0 :: nonzeroIndices (gpx_calculate_distance g false)).getD (k + 1) 0 - 1 + 1 =
      (0 :: nonzeroIndices (gpx_calculate_distance g false)).getD (k + 1) 0 := by omega
  rw [hsub]
  apply (haversine_eq_zero_iff _ _ _ _).2
  apply (havTerm_eq_zero_iff _ _ _ _).2
  exact hchain.symm.trans heq

/-- A track whose consecutive distances are all nonzero is returned
unchanged by `gpx_remove_duplicates`. -/
theorem remove_id_of_all_nonzero (g : GPXData) (hn : 1 ≤ g.lat.length)
    (hall : ∀ i, 1 ≤ i → i < g.lat.length →
      (gpx_calculate_distance g false).getD i 0 ≠ 0) :
    gpx_remove_duplicates g = g := by
  have hlen := gpx_calculate_distance_length g false
  have h0 : (gpx_calculate_distance g false).getD 0 0 = 0 := by
    rw [gpx_calculate_distance_getD]
    simp
  have hNZ := nonzeroIndices_congr_one_le _ h0 (by rw [hlen]; exact hall)
  rw [gpx_remove_duplicates_ite, if_pos]
  rw [List.length_cons, hNZ, length_filter_range_one_le, hlen]
  omega

/-- C3: `gpx_remove_duplicates` retains exactly index 0 and the indices at
nonzero (elevation-free) distance from their predecessor — collapsing each
run of consecutive zero-distance points to its first point — re-indexes all
present channels by one common index list, maps absent channels to `None`,
is the identity when no consecutive distance vanishes, and is idempotent. -/
theorem claim_C3 (g : GPXData) (hn : 1 ≤ g.lat.length)
    (hlon : g.lon.length = g.lat.length)
    (hele : ∀ l, g.ele = some l → l.length = g.lat.length)
    (hts : ∀ l, g.tstamp = some l → l.length = g.lat.length) :
    (∀ i : ℕ, i ∈ (0 :: nonzeroIndices (gpx_calculate_distance g false)) ↔
      (i = 0 ∨ (i < g.lat.length ∧ (gpx_calculate_distance g false).getD i 0 ≠ 0))) ∧
    (∃ idx : List ℕ, List.Pairwise (· < ·) idx ∧ idx.getD 0 0 = 0 ∧ 0 < idx.length ∧
      (gpx_remove_duplicates g).lat = idx.map (fun i => g.lat.getD i 0) ∧
      (gpx_remove_duplicates g).lon = idx.map (fun i => g.lon.getD i 0) ∧
      (chPresent g.ele = true → (gpx_remove_duplicates g).ele =
        some (idx.map (fun i => (chList g.ele).getD i 0))) ∧
      (chPresent g.ele = false → (gpx_remove_duplicates g).ele = none) ∧
      (chPresent g.tstamp = true → (gpx_remove_duplicates g).tstamp =
        some (idx.map (fun i => (chList g.tstamp).getD i 0))) ∧
      (chPresent g.tstamp = false → (gpx_remove_duplicates g).tstamp = none)) ∧
    ((∀ i, 1 ≤ i → i < g.lat.length →
        (gpx_calculate_distance g false).getD i 0 ≠ 0) →
      gpx_remove_duplicates g = g) ∧
    gpx_remove_duplicates (gpx_remove_duplicates g) = gpx_remove_duplicates g := by
  have hDl := gpx_calculate_distance_length g false
  have hmem : ∀ i : ℕ, i ∈ (0 :: nonzeroIndices (gpx_calculate_distance g false)) ↔
      (i = 0 ∨ (i < g.lat.length ∧ (gpx_calculate_distance g false).getD i 0 ≠ 0)) := by
    intro i
    rw [List.mem_cons, mem_nonzeroIndices, hDl]
  by_cases hid : (0 :: nonzeroIndices (gpx_calculate_distance g false)).length =
      (gpx_calculate_distance g false).length
  · have hr : gpx_remove_duplicates g = g := by
      rw [gpx_remove_duplicates_ite, if_pos hid]
    refine ⟨hmem, ⟨List.range g.lat.length, List.pairwise_lt_range _, ?_, ?_,
      ?_, ?_, ?_, ?_, ?_, ?_⟩, fun hall => remove_id_of_all_nonzero g hn hall,
      by rw [hr]; exact hr⟩
    · rw [List.getD_eq_getElem _ _ (by simpa using hn), List.getElem_range]
    · simpa using hn
    · rw [hr]
      exact (map_getD_range g.lat).symm
    · rw [hr, ← hlon]
      exact (map_getD_range g.lon).symm
    · intro hp
      rw [hr]
      cases he : g.ele with
      | none => rw [he] at hp; simp [chPresent] at hp
      | some l =>
        have hl := hele l he
        congr 1
        rw [show chList (some l) = l from rfl, ← hl]
        exact (map_getD_range l).symm
    · intro hp
      rw [hr]
      exact absent_eq_none hele hn hp
    · intro hp
      rw [hr]
      cases he : g.tstamp with
      | none => rw [he] at hp; simp [chPresent] at hp
      | some l =>
        have hl := hts l he
        congr 1
        rw [show chList (some l) = l from rfl, ← hl]
        exact (map_getD_range l).symm
    · intro hp
      rw [hr]
      exact absent_eq_none hts hn hp
  · have hr := gpx_remove_duplicates_ite g
    rw [if_neg hid] at hr
    have hidem : gpx_remove_duplicates (gpx_remove_duplicates g) =
        gpx_remove_duplicates g := by
      rw [hr]
      apply remove_id_of_all_nonzero
      · dsimp only
        rw [List.length_map, List.length_cons]
        omega
      · intro j hj1 hjlen
        have hjI : j < (0 :: nonzeroIndices (gpx_calculate_distance g false)).length := by
          have h2 := hjlen
          dsimp only at h2
          rwa [List.length_map] at h2
        rw [gpx_calculate_distance_getD, if_pos ⟨hj1, hjlen⟩, segDist_false]
        dsimp only
        have hsub : j - 1 + 1 = j := by omega
        rw [hsub]
        rw [getD_map_nat _ _ _ (by omega), getD_map_nat _ _ _ (by omega),
          getD_map_nat _ _ _ hjI, getD_map_nat _ _ _ hjI]
        intro h0
        have hk' : (j - 1) + 1 <
            (0 :: nonzeroIndices (gpx_calculate_distance g false)).length := by omega
        have hne := dedup_consec_ne g (j - 1) hk'
        rw [hsub] at hne
        exact hne ((havTerm_eq_zero_iff _ _ _ _).1
          ((haversine_eq_zero_iff _ _ _ _).1 h0))
    refine ⟨hmem, ⟨0 :: nonzeroIndices (gpx_calculate_distance g false),
      dedupIdx_sorted g, rfl, by simp, ?_, ?_, ?_, ?_, ?_, ?_⟩,
      fun hall => remove_id_of_all_nonzero g hn hall, hidem⟩
    · rw [hr]
    · rw [hr]
    · intro hp
      rw [hr]
      simp [hp]
    · intro hp
      rw [hr]
      simp [hp]
    · intro hp
      rw [hr]
      simp [hp]
    · intro hp
      rw [hr]
      simp [hp]

/-- Witness for C3: the spec's own example, the track
`[(1,1),(1,1),(2,2)]`, on which a duplicate is removed and a second
application of `gpx_remove_duplicates` changes nothing. -/
theorem claim_C3_witness :
    1 ≤ (GPXData.mk [1, 1, 2] [1, 1, 2] none none).lat.length ∧
    gpx_remove_duplicates (gpx_remove_duplicates
        (GPXData.mk [1, 1, 2] [1, 1, 2] none none)) =
      gpx_remove_duplicates (GPXData.mk [1, 1, 2] [1, 1, 2] none none) :=
  ⟨by simp, (claim_C3 (GPXData.mk [1, 1, 2] [1, 1, 2] none none) (by simp)
    (by simp) (by intro l h; cases h) (by intro l h; cases h)).2.2.2⟩

/-- Witness for C2 at a concrete two-point track. -/
theorem claim_C2_witness :
    0 < (GPXData.mk [0, 0] [0, 90] none none).lat.length ∧
    (cumsum (gpx_calculate_distance (GPXData.mk [0, 0] [0, 90] none none)
      false)).getD 0 0 = 0 :=
  ⟨by simp, (claim_C2 (GPXData.mk [0, 0] [0, 90] none none) false).2.2 (by simp)⟩

/-! ### Speed computation -/

theorem EPS_pos : 0 < EPS := by
  unfold EPS
  norm_num

theorem getD_map_range (f : ℕ → ℝ) (n i : ℕ) (h : i < n) :
    ((List.range n).map f).getD i 0 = f i := by
  rw [List.getD_eq_getElem _ _ (by simpa using h), List.getElem_map,
    List.getElem_range]

theorem gpx_calculate_speed_length (g : GPXData) :
    (gpx_calculate_speed g).length = (chList g.tstamp).length := by
  unfold gpx_calculate_speed
  simp

theorem gpx_calculate_speed_getD (g : GPXData) (i : ℕ)
    (hi : i < (chList g.tstamp).length) :
    (gpx_calculate_speed g).getD i 0 =
      (if (if i = 0 then (0 : ℝ)
          else (chList g.tstamp).getD i 0 - (chList g.tstamp).getD (i - 1) 0) < EPS
       then 0
       else (gpx_calculate_distance g true).getD i 0 /
         (if i = 0 then (0 : ℝ)
          else (chList g.tstamp).getD i 0 - (chList g.tstamp).getD (i - 1) 0)) := by
  unfold gpx_calculate_speed
  rw [getD_map_range _ _ _ hi, getD_map_range _ _ _ hi]

/-- C6: on a track with a timestamp channel, `gpx_calculate_speed` returns
one value per track point, value 0 at index 0, forces any step whose
timestamp delta is below `EPS` to speed 0, and every returned value is
non-negative and bounded by the step distance divided by `EPS` (no division
by a quantity smaller than `EPS` ever happens). -/
theorem claim_C6 (g : GPXData) (ts : List ℝ) (hts : g.tstamp = some ts)
    (hlen : ts.length = g.lat.length) :
    (gpx_calculate_speed g).length = g.lat.length ∧
    (gpx_calculate_speed g).getD 0 0 = 0 ∧
    (∀ i, i < g.lat.length →
      (if i = 0 then (0 : ℝ) else ts.getD i 0 - ts.getD (i - 1) 0) < EPS →
      (gpx_calculate_speed g).getD i 0 = 0) ∧
    (∀ i, 0 ≤ (gpx_calculate_speed g).getD i 0) ∧
    (∀ i, (gpx_calculate_speed g).getD i 0 ≤
      (gpx_calculate_distance g true).getD i 0 / EPS) := by
  have hch : chList g.tstamp = ts := by rw [hts]; rfl
  have hlen2 : (chList g.tstamp).length = g.lat.length := by rw [hch, hlen]
  refine ⟨?_, ?_, ?_, ?_, ?_⟩
  · rw [gpx_calculate_speed_length, hlen2]
  · rcases Nat.eq_zero_or_pos (chList g.tstamp).length with h0 | h0
    · rw [List.getD_eq_default]
      rw [gpx_calculate_speed_length, h0]
    · rw [gpx_calculate_speed_getD g 0 h0, if_pos (by simpa using EPS_pos)]
  · intro i hi hdelta
    rw [gpx_calculate_speed_getD g i (by omega), if_pos (by rwa [hch])]
  · intro i
    rcases Nat.lt_or_ge i (chList g.tstamp).length with hi | hi
    · rw [gpx_calculate_speed_getD g i hi]
      by_cases hc : (if i = 0 then (0 : ℝ)
          else (chList g.tstamp).getD i 0 - (chList g.tstamp).getD (i - 1) 0) < EPS
      · rw [if_pos hc]
      · rw [if_neg hc]
        push_neg at hc
        have hd := gpx_calculate_distance_getD_nonneg g true i
        have hdt : (0 : ℝ) < (if i = 0 then (0 : ℝ)
            else (chList g.tstamp).getD i 0 - (chList g.tstamp).getD (i - 1) 0) :=
          lt_of_lt_of_le EPS_pos hc
        exact div_nonneg hd hdt.le
    · rw [List.getD_eq_default]
      rw [gpx_calculate_speed_length]
      omega
  · intro i
    have hd := gpx_calculate_distance_getD_nonneg g true i
    rcases Nat.lt_or_ge i (chList g.tstamp).length with hi | hi
    · rw [gpx_calculate_speed_getD g i hi]
      by_cases hc : (if i = 0 then (0 : ℝ)
          else (chList g.tstamp).getD i 0 - (chList g.tstamp).getD (i - 1) 0) < EPS
      · rw [if_pos hc]
        exact div_nonneg hd EPS_pos.le
      · rw [if_neg hc]
        push_neg at hc
        gcongr
        exact EPS_pos
    · rw [List.getD_eq_default]
      · exact div_nonneg hd EPS_pos.le
      · rw [gpx_calculate_speed_length]
        omega

/-- Witness for C6 at a concrete two-point timed track. -/
theorem claim_C6_witness :
    (GPXData.mk [0, 0] [0, 90] none (some [0, 10])).tstamp = some [0, 10] ∧
    (gpx_calculate_speed (GPXData.mk [0, 0] [0, 90] none (some [0, 10]))).getD 0 0 = 0 :=
  ⟨rfl, (claim_C6 (GPXData.mk [0, 0] [0, 90] none (some [0, 10])) [0, 10] rfl
    (by simp)).2.1⟩

/-- C10: a timestamp step that goes backwards (negative delta, in
particular below `EPS`) yields speed 0, not a negative value. -/
theorem claim_C10 (g : GPXData) (ts : List ℝ) (hts : g.tstamp = some ts)
    (hlen : ts.length = g.lat.length) (i : ℕ) (h1 : 1 ≤ i) (hi : i < g.lat.length)
    (hdec : ts.getD i 0 < ts.getD (i - 1) 0) :
    (gpx_calculate_speed g).getD i 0 = 0 := by
  have hch : chList g.tstamp = ts := by rw [hts]; rfl
  have hi' : i < (chList g.tstamp).length := by rw [hch, hlen]; exact hi
  rw [gpx_calculate_speed_getD g i hi']
  rw [if_pos]
  rw [hch, if_neg (by omega)]
  have := EPS_pos
  linarith

/-- Witness for C10: a track whose timestamps decrease at step 1. -/
theorem claim_C10_witness :
    ([10, 3] : List ℝ).getD 1 0 < ([10, 3] : List ℝ).getD 0 0 ∧
    (gpx_calculate_speed (GPXData.mk [0, 0] [0, 90] none (some [10, 3]))).getD 1 0 = 0 :=
  ⟨by norm_num [List.getD_cons_succ, List.getD_cons_zero],
   claim_C10 (GPXData.mk [0, 0] [0, 90] none (some [10, 3])) [10, 3] rfl
    (by simp) 1 (by omega) (by simp)
    (by norm_num [List.getD_cons_succ, List.getD_cons_zero])⟩

/-! ### Lemmas for the interpolation pipeline -/

theorem getD_map_real (l : List ℝ) (f : ℝ → ℝ) (t : ℕ) (ht : t < l.length) :
    (l.map f).getD t 0 = f (l.getD t 0) := by
  rw [List.getD_eq_getElem _ _ (by simpa using ht), List.getElem_map,
    List.getD_eq_getElem _ _ ht]

theorem linspace_length (a b : ℝ) (num : ℕ) : (linspace a b num).length = num := by
  simp [linspace]

theorem linspace_getD_zero (a b : ℝ) (num : ℕ) (h : 1 ≤ num) :
    (linspace a b num).getD 0 0 = a := by
  unfold linspace
  rw [getD_map_range _ _ _ (by omega)]
  norm_num

theorem linspace_getD_last (a b : ℝ) (num : ℕ) (h : 2 ≤ num) :
    (linspace a b num).getD (num - 1) 0 = b := by
  unfold linspace
  rw [getD_map_range _ _ _ (by omega)]
  have hc : ((num - 1 : ℕ) : ℝ) = (num : ℝ) - 1 := by
    rw [Nat.cast_sub (by omega)]
    norm_num
  rw [hc]
  have hne : (num : ℝ) - 1 ≠ 0 := by
    have : (2 : ℝ) ≤ (num : ℝ) := by exact_mod_cast h
    intro hc2
    nlinarith
  field_simp

/-- If `gpx_remove_duplicates` takes the identity branch, every
consecutive distance beyond index 0 is nonzero. -/
theorem remove_id_all_nonzero (g : GPXData)
    (hid : (0 :: nonzeroIndices (gpx_calculate_distance g false)).length =
      (gpx_calculate_distance g false).length) :
    ∀ j, 1 ≤ j → j < g.lat.length →
      (gpx_calculate_distance g false).getD j 0 ≠ 0 := by
  intro j hj1 hjn
  have hDl := gpx_calculate_distance_length g false
  have hsub : (nonzeroIndices (gpx_calculate_distance g false)).Sublist
      ((List.range (gpx_calculate_distance g false).length).filter
        (fun i => decide (1 ≤ i))) := by
    unfold nonzeroIndices
    apply List.monotone_filter_right
    intro a ha
    rw [decide_eq_true_eq] at ha
    apply decide_eq_true
    by_contra h0
    have ha0 : a = 0 := by omega
    subst ha0
    apply ha
    rw [gpx_calculate_distance_getD]
    simp
  have hlen : (nonzeroIndices (gpx_calculate_distance g false)).length =
      ((List.range (gpx_calculate_distance g false).length).filter
        (fun i => decide (1 ≤ i))).length := by
    rw [List.length_cons] at hid
    rw [length_filter_range_one_le]
    omega
  have heq := hsub.eq_of_length hlen
  have hjmem : j ∈ (List.range (gpx_calculate_distance g false).length).filter
      (fun i => decide (1 ≤ i)) := by
    rw [List.mem_filter, List.mem_range]
    exact ⟨by omega, decide_eq_true hj1⟩
  rw [← heq] at hjmem
  exact (mem_nonzeroIndices.1 hjmem).2

/-- The haversine distance between consecutive points of the
duplicate-removed track is never zero. -/
theorem remove_consec_ne (g : GPXData) :
    ∀ j, 1 ≤ j → j < (gpx_remove_duplicates g).lat.length →
      haversine ((gpx_remove_duplicates g).lat.getD (j - 1) 0)
        ((gpx_remove_duplicates g).lon.getD (j - 1) 0)
        ((gpx_remove_duplicates g).lat.getD j 0)
        ((gpx_remove_duplicates g).lon.getD j 0) ≠ 0 := by
  intro j hj1 hjlen
  by_cases hid : (0 :: nonzeroIndices (gpx_calculate_distance g false)).length =
      (gpx_calculate_distance g false).length
  · have hr : gpx_remove_duplicates g = g := by
      rw [gpx_remove_duplicates_ite, if_pos hid]
    rw [hr] at hjlen ⊢
    have hD := remove_id_all_nonzero g hid j hj1 hjlen
    rw [gpx_calculate_distance_getD, if_pos ⟨hj1, hjlen⟩, segDist_false] at hD
    have hsub : j - 1 + 1 = j := by omega
    rwa [hsub] at hD
  · have hr := gpx_remove_duplicates_ite g
    rw [if_neg hid] at hr
    rw [hr] at hjlen ⊢
    have hjI : j < (0 :: nonzeroIndices (gpx_calculate_distance g false)).length := by
      dsimp only at hjlen
      rwa [List.length_map] at hjlen
    dsimp only
    rw [getD_map_nat _ _ _ (by omega), getD_map_nat _ _ _ (by omega),
      getD_map_nat _ _ _ hjI, getD_map_nat _ _ _ hjI]
    intro h0
    have hsub : j - 1 + 1 = j := by omega
    have hne := dedup_consec_ne g (j - 1) (by omega)
    rw [hsub] at hne
    exact hne ((havTerm_eq_zero_iff _ _ _ _).1
      ((haversine_eq_zero_iff _ _ _ _).1 h0))

/-- A nonzero haversine step forces a positive with-elevation distance. -/
theorem segDist_true_pos (g : GPXData) (i : ℕ)
    (h : haversine (g.lat.getD i 0) (g.lon.getD i 0)
      (g.lat.getD (i + 1) 0) (g.lon.getD (i + 1) 0) ≠ 0) :
    0 < segDist g true i := by
  unfold segDist
  have hge := haversine_nonneg (g.lat.getD i 0) (g.lon.getD i 0)
    (g.lat.getD (i + 1) 0) (g.lon.getD (i + 1) 0)
  have hpos : 0 < haversine (g.lat.getD i 0) (g.lon.getD i 0)
      (g.lat.getD (i + 1) 0) (g.lon.getD (i + 1) 0) := lt_of_le_of_ne hge (Ne.symm h)
  by_cases hc : chPresent g.ele && true
  · rw [if_pos hc]
    rw [Real.sqrt_pos]
    nlinarith [sq_nonneg ((chList g.ele).getD (i + 1) 0 - (chList g.ele).getD i 0)]
  · rw [if_neg hc]
    exact hpos

/-- Every consecutive with-elevation distance of the duplicate-removed
track is positive. -/
theorem remove_dist_pos (g : GPXData) :
    ∀ j, 1 ≤ j → j < (gpx_remove_duplicates g).lat.length →
      0 < (gpx_calculate_distance (gpx_remove_duplicates g) true).getD j 0 := by
  intro j hj1 hjlen
  rw [gpx_calculate_distance_getD, if_pos ⟨hj1, hjlen⟩]
  apply segDist_true_pos
  have hsub : j - 1 + 1 = j := by omega
  rw [hsub]
  exact remove_consec_ne g j hj1 hjlen

/-- `gpx_remove_duplicates` preserves the validity invariants and the
presence flags, and keeps point 0 in place. -/
theorem remove_valid (g : GPXData) (hn : 1 ≤ g.lat.length)
    (hlon : g.lon.length = g.lat.length)
    (hele : ∀ l, g.ele = some l → l.length = g.lat.length)
    (hts : ∀ l, g.tstamp = some l → l.length = g.lat.length) :
    1 ≤ (gpx_remove_duplicates g).lat.length ∧
    (gpx_remove_duplicates g).lon.length = (gpx_remove_duplicates g).lat.length ∧
    (∀ l, (gpx_remove_duplicates g).ele = some l →
      l.length = (gpx_remove_duplicates g).lat.length) ∧
    (∀ l, (gpx_remove_duplicates g).tstamp = some l →
      l.length = (gpx_remove_duplicates g).lat.length) ∧
    chPresent (gpx_remove_duplicates g).ele = chPresent g.ele ∧
    chPresent (gpx_remove_duplicates g).tstamp = chPresent g.tstamp ∧
    (gpx_remove_duplicates g).lat.getD 0 0 = g.lat.getD 0 0 ∧
    (gpx_remove_duplicates g).lon.getD 0 0 = g.lon.getD 0 0 := by
  by_cases hid : (0 :: nonzeroIndices (gpx_calculate_distance g false)).length =
      (gpx_calculate_distance g false).length
  · have hr : gpx_remove_duplicates g = g := by
      rw [gpx_remove_duplicates_ite, if_pos hid]
    rw [hr]
    exact ⟨hn, hlon, hele, hts, rfl, rfl, rfl, rfl⟩
  · have hr := gpx_remove_duplicates_ite g
    rw [if_neg hid] at hr
    rw [hr]
    have hI0 : 0 < (0 :: nonzeroIndices (gpx_calculate_distance g false)).length := by
      simp
    refine ⟨?_, ?_, ?_, ?_, ?_, ?_, ?_, ?_⟩
    · dsimp only
      rw [List.length_map]
      exact hI0
    · dsimp only
      rw [List.length_map, List.length_map]
    · intro l hl
      dsimp only at hl ⊢
      rw [List.length_map]
      split_ifs at hl with hp
      cases hl
      rw [List.length_map]
    · intro l hl
      dsimp only at hl ⊢
      rw [List.length_map]
      split_ifs at hl with hp
      cases hl
      rw [List.length_map]
    · dsimp only
      split_ifs with hp
      · rw [hp]
        rfl
      · rw [Bool.not_eq_true] at hp
        rw [hp]
        rfl
    · dsimp only
      split_ifs with hp
      · rw [hp]
        rfl
      · rw [Bool.not_eq_true] at hp
        rw [hp]
        rfl
    · dsimp only
      rw [getD_map_nat _ _ _ hI0]
      rfl
    · dsimp only
      rw [getD_map_nat _ _ _ hI0]
      rfl

theorem isEmpty_false_of_len {l : List ℝ} (h : 1 ≤ l.length) :
    l.isEmpty = false := by
  cases l with
  | nil => simp at h
  | cons a t => rfl

theorem intervalIndex_first (xs : List ℝ) (_hlen : 2 ≤ xs.length)
    (hsorted : ∀ j, 1 ≤ j → j < xs.length → xs.getD 0 0 < xs.getD j 0) :
    intervalIndex xs (xs.getD 0 0) = 0 := by
  unfold intervalIndex
  have hc : (xs.drop 1).countP (fun z => decide (z ≤ xs.getD 0 0)) = 0 := by
    rw [List.countP_eq_zero]
    intro a ha
    obtain ⟨k, hk, hka⟩ := List.mem_iff_getElem.1 ha
    rw [List.getElem_drop] at hka
    have hdl := List.length_drop 1 xs
    have h1k : 1 + k < xs.length := by omega
    have hlt := hsorted (1 + k) (by omega) h1k
    rw [List.getD_eq_getElem _ _ h1k, hka] at hlt
    simp only [decide_eq_true_eq]
    intro hle
    linarith
  rw [hc]
  exact Nat.min_zero _

theorem intervalIndex_last (xs : List ℝ) (_hlen : 2 ≤ xs.length)
    (hmono : ∀ j, j < xs.length → xs.getD j 0 ≤ xs.getD (xs.length - 1) 0) :
    intervalIndex xs (xs.getD (xs.length - 1) 0) = xs.length - 2 := by
  unfold intervalIndex
  have hc : (xs.drop 1).countP (fun z => decide (z ≤ xs.getD (xs.length - 1) 0)) =
      (xs.drop 1).length := by
    rw [List.countP_eq_length]
    intro a ha
    obtain ⟨k, hk, hka⟩ := List.mem_iff_getElem.1 ha
    rw [List.getElem_drop] at hka
    have hdl := List.length_drop 1 xs
    have h1k : 1 + k < xs.length := by omega
    have hle := hmono (1 + k) h1k
    rw [List.getD_eq_getElem _ _ h1k, hka] at hle
    exact decide_eq_true hle
  rw [hc, List.length_drop]
  omega

theorem hermite_left (x0 x1 y0 y1 m0 m1 : ℝ) :
    hermite x0 x1 y0 y1 m0 m1 x0 = y0 := by
  unfold hermite
  simp only [sub_self, zero_div]
  ring

theorem hermite_right (x0 x1 y0 y1 m0 m1 : ℝ) (hne : x1 - x0 ≠ 0) :
    hermite x0 x1 y0 y1 m0 m1 x1 = y1 := by
  unfold hermite
  simp only
  rw [div_self hne]
  ring

theorem pchipEval_first (xs ys : List ℝ) (hlen : 2 ≤ xs.length)
    (hsorted : ∀ j, 1 ≤ j → j < xs.length → xs.getD 0 0 < xs.getD j 0) :
    pchipEval xs ys (xs.getD 0 0) = ys.getD 0 0 := by
  unfold pchipEval
  rw [intervalIndex_first xs hlen hsorted]
  exact hermite_left _ _ _ _ _ _

theorem pchipEval_last (xs ys : List ℝ) (hlen : 2 ≤ xs.length)
    (hstrict : xs.getD (xs.length - 2) 0 < xs.getD (xs.length - 1) 0)
    (hmono : ∀ j, j < xs.length → xs.getD j 0 ≤ xs.getD (xs.length - 1) 0) :
    pchipEval xs ys (xs.getD (xs.length - 1) 0) = ys.getD (xs.length - 1) 0 := by
  unfold pchipEval
  rw [intervalIndex_last xs hlen hmono]
  dsimp only
  have he : xs.length - 2 + 1 = xs.length - 1 := by omega
  rw [he]
  exact hermite_right _ _ _ _ _ _ (sub_ne_zero.2 (ne_of_gt hstrict))

theorem interpKnots_length (g : GPXData) :
    (interpKnots g).length = (gpx_remove_duplicates g).lat.length := by
  unfold interpKnots
  rw [cumsum_length, gpx_calculate_distance_length]

theorem interpKnots_pairwise (g : GPXData) :
    List.Pairwise (· < ·) (interpKnots g) := by
  rw [← List.chain'_iff_pairwise, List.chain'_iff_get]
  intro i hi
  have hKl := interpKnots_length g
  unfold interpKnots at hi ⊢
  have hlen : (cumsum (gpx_calculate_distance (gpx_remove_duplicates g) true)).length =
      (gpx_calculate_distance (gpx_remove_duplicates g) true).length := cumsum_length _
  have hi1 : i + 1 < (gpx_calculate_distance (gpx_remove_duplicates g) true).length := by
    omega
  have hi0 : i < (gpx_calculate_distance (gpx_remove_duplicates g) true).length := by
    omega
  simp only [List.get_eq_getElem]
  rw [← List.getD_eq_getElem _ 0 (by omega), ← List.getD_eq_getElem _ 0 (by omega),
    cumsum_getD _ _ hi0, cumsum_getD _ _ hi1, List.sum_take_succ _ (i + 1) hi1]
  have hdl := gpx_calculate_distance_length (gpx_remove_duplicates g) true
  have hpos := remove_dist_pos g (i + 1) (by omega) (by omega)
  rw [List.getD_eq_getElem _ _ hi1] at hpos
  linarith

theorem pairwise_getD_lt (l : List ℝ) (h : List.Pairwise (· < ·) l) (p q : ℕ)
    (hpq : p < q) (hq : q < l.length) : l.getD p 0 < l.getD q 0 := by
  have hp : p < l.length := by omega
  have hg := List.pairwise_iff_get.1 h ⟨p, hp⟩ ⟨q, hq⟩ (Fin.mk_lt_mk.2 hpq)
  rw [List.getD_eq_getElem _ _ hp, List.getD_eq_getElem _ _ hq]
  simpa [List.get_eq_getElem] using hg

theorem interpRows_eq (g : GPXData)
    (hlat : ((gpx_remove_duplicates g).lat.isEmpty) = false)
    (hlon : ((gpx_remove_duplicates g).lon.isEmpty) = false) :
    interpRows g = [(gpx_remove_duplicates g).lat, (gpx_remove_duplicates g).lon] ++
      (if chPresent (gpx_remove_duplicates g).ele then
        [chList (gpx_remove_duplicates g).ele] else []) ++
      (if chPresent (gpx_remove_duplicates g).tstamp then
        [chList (gpx_remove_duplicates g).tstamp] else []) := by
  unfold interpRows
  rw [hlat, hlon]
  simp

theorem gpx_interpolate_ite_neg (g : GPXData) (distance : ℝ) (num : Option ℤ)
    (hn : 1 ≤ g.lat.length) :
    gpx_interpolate g distance num =
      { lat := (pchip_interpolate (interpKnots g) (interpRows g)
          (interpQueries g distance num)).getD 0 [],
        lon := (pchip_interpolate (interpKnots g) (interpRows g)
          (interpQueries g distance num)).getD 1 [],
        ele := if chPresent g.ele then
            some ((pchip_interpolate (interpKnots g) (interpRows g)
              (interpQueries g distance num)).getD 2 []) else none,
        tstamp := if chPresent g.tstamp then
            some ((pchip_interpolate (interpKnots g) (interpRows g)
              (interpQueries g distance num)).getD
                ((pchip_interpolate (interpKnots g) (interpRows g)
                  (interpQueries g distance num)).length - 1) []) else none } := by
  have hc : (g.lat.isEmpty && g.lon.isEmpty && !chPresent g.ele &&
      !chPresent g.tstamp) = false := by
    rw [isEmpty_false_of_len hn]
    rfl
  unfold gpx_interpolate
  rw [if_neg (by rw [hc]; simp)]

theorem gpx_interpolate_lengths (g : GPXData) (hn : 1 ≤ g.lat.length)
    (hlon : g.lon.length = g.lat.length)
    (hele : ∀ l, g.ele = some l → l.length = g.lat.length)
    (hts : ∀ l, g.tstamp = some l → l.length = g.lat.length)
    (distance : ℝ) (num : Option ℤ) :
    (gpx_interpolate g distance num).lat.length = (interpNum g distance num).toNat ∧
    (gpx_interpolate g distance num).lon.length = (interpNum g distance num).toNat ∧
    (∀ l, (gpx_interpolate g distance num).ele = some l →
      l.length = (interpNum g distance num).toNat) ∧
    (∀ l, (gpx_interpolate g distance num).tstamp = some l →
      l.length = (interpNum g distance num).toNat) ∧
    (chPresent g.ele = false → (gpx_interpolate g distance num).ele = none) ∧
    (chPresent g.tstamp = false → (gpx_interpolate g distance num).tstamp = none) := by
  obtain ⟨hrn, hrlon, _, _, hpe, hpt, _, _⟩ := remove_valid g hn hlon hele hts
  have hlat' : (gpx_remove_duplicates g).lat.isEmpty = false := isEmpty_false_of_len hrn
  have hlon' : (gpx_remove_duplicates g).lon.isEmpty = false :=
    isEmpty_false_of_len (by rw [hrlon]; exact hrn)
  have hrows := interpRows_eq g hlat' hlon'
  have hQ : (interpQueries g distance num).length = (interpNum g distance num).toNat := by
    unfold interpQueries
    rw [linspace_length]
  rw [gpx_interpolate_ite_neg g distance num hn]
  cases he : chPresent (gpx_remove_duplicates g).ele <;>
    cases ht : chPresent (gpx_remove_duplicates g).tstamp <;>
    rw [he, ht] at hrows <;> simp only [if_true, if_false, Bool.false_eq_true,
      List.append_nil, List.nil_append, List.cons_append, List.append_assoc] at hrows <;>
    have hge := hpe.symm.trans he <;> have hgt := hpt.symm.trans ht <;>
    refine ⟨?_, ?_, ?_, ?_, ?_, ?_⟩
  · dsimp only
    rw [hrows]
    simp [pchip_interpolate, hQ]
  · dsimp only
    rw [hrows]
    simp [pchip_interpolate, hQ]
  · intro l hl
    dsimp only at hl
    rw [hge] at hl
    simp at hl
  · intro l hl
    dsimp only at hl
    rw [hgt] at hl
    simp at hl
  · intro _
    dsimp only
    rw [hge]
    rfl
  · intro _
    dsimp only
    rw [hgt]
    rfl
  · dsimp only
    rw [hrows]
    simp [pchip_interpolate, hQ]
  · dsimp only
    rw [hrows]
    simp [pchip_interpolate, hQ]
  · intro l hl
    dsimp only at hl
    rw [hge] at hl
    simp at hl
  · intro l hl
    dsimp only at hl
    rw [hgt] at hl
    simp only [if_true] at hl
    cases hl
    rw [hrows]
    simp [pchip_interpolate, hQ]
  · intro _
    dsimp only
    rw [hge]
    rfl
  · intro hc
    rw [hgt] at hc
    cases hc
  · dsimp only
    rw [hrows]
    simp [pchip_interpolate, hQ]
  · dsimp only
    rw [hrows]
    simp [pchip_interpolate, hQ]
  · intro l hl
    dsimp only at hl
    rw [hge] at hl
    simp only [if_true] at hl
    cases hl
    rw [hrows]
    simp [pchip_interpolate, hQ]
  · intro l hl
    dsimp only at hl
    rw [hgt] at hl
    simp at hl
  · intro hc
    rw [hge] at hc
    cases hc
  · intro _
    dsimp only
    rw [hgt]
    rfl
  · dsimp only
    rw [hrows]
    simp [pchip_interpolate, hQ]
  · dsimp only
    rw [hrows]
    simp [pchip_interpolate, hQ]
  · intro l hl
    dsimp only at hl
    rw [hge] at hl
    simp only [if_true] at hl
    cases hl
    rw [hrows]
    simp [pchip_interpolate, hQ]
  · intro l hl
    dsimp only at hl
    rw [hgt] at hl
    simp only [if_true] at hl
    cases hl
    rw [hrows]
    simp [pchip_interpolate, hQ]
  · intro hc
    rw [hge] at hc
    cases hc
  · intro hc
    rw [hgt] at hc
    cases hc

/-- C4: with `num = k` the interpolated track has exactly `k` points in
every present channel, for any `distance` (so `num` takes priority);
absent channels stay absent; when `num` is absent the effective point
count is `ceil(total_arc_length / distance)`. -/
theorem claim_C4 (g : GPXData) (hn : 1 ≤ g.lat.length)
    (hlon : g.lon.length = g.lat.length)
    (hele : ∀ l, g.ele = some l → l.length = g.lat.length)
    (hts : ∀ l, g.tstamp = some l → l.length = g.lat.length)
    (distance : ℝ) (k : ℕ) (_hk : 2 ≤ k) :
    (gpx_interpolate g distance (some (k : ℤ))).lat.length = k ∧
    (gpx_interpolate g distance (some (k : ℤ))).lon.length = k ∧
    (∀ l, (gpx_interpolate g distance (some (k : ℤ))).ele = some l → l.length = k) ∧
    (∀ l, (gpx_interpolate g distance (some (k : ℤ))).tstamp = some l →
      l.length = k) ∧
    (chPresent g.ele = false → (gpx_interpolate g distance (some (k : ℤ))).ele = none) ∧
    (chPresent g.tstamp = false →
      (gpx_interpolate g distance (some (k : ℤ))).tstamp = none) ∧
    interpNum g distance (some (k : ℤ)) = (k : ℤ) ∧
    (∀ d2 : ℝ, interpNum g d2 none =
      ⌈(interpKnots g).getD ((interpKnots g).length - 1) 0 / d2⌉) ∧
    (∀ d2 : ℝ, (gpx_interpolate g d2 none).lat.length = (interpNum g d2 none).toNat) := by
  have h := gpx_interpolate_lengths g hn hlon hele hts distance (some (k : ℤ))
  have htn : ((k : ℤ)).toNat = k := Int.toNat_ofNat k
  have hnum : interpNum g distance (some (k : ℤ)) = (k : ℤ) := rfl
  rw [hnum, htn] at h
  exact ⟨h.1, h.2.1, h.2.2.1, h.2.2.2.1, h.2.2.2.2.1, h.2.2.2.2.2, rfl,
    fun _ => rfl, fun d2 => (gpx_interpolate_lengths g hn hlon hele hts d2 none).1⟩

/-- Witness for C4: requesting 5 points from a two-point track. -/
theorem claim_C4_witness :
    2 ≤ 5 ∧
    (gpx_interpolate (GPXData.mk [0, 0] [0, 90] none none) 1 (some (5 : ℤ))).lat.length
      = 5 :=
  ⟨by omega, (claim_C4 (GPXData.mk [0, 0] [0, 90] none none) (by simp) (by simp)
    (by intro l h; cases h) (by intro l h; cases h) 1 5 (by omega)).1⟩

/-! ### `gpx_write` validation (C7) -/

/-- C7: requesting speed output on a track without a truthy timestamp
channel makes `gpx_write` fail with the `ValueError` before any point is
serialized: the result is the error value and never an output list. -/
theorem claim_C7 (g : GPXData) (hsp : chPresent g.tstamp = false) :
    gpx_write g true = Except.error missingTstampMsg ∧
    ∀ pts : List OutPoint, gpx_write g true ≠ Except.ok pts := by
  have h : gpx_write g true = Except.error missingTstampMsg := by
    unfold gpx_write
    rw [if_pos]
    rw [hsp]
    rfl
  exact ⟨h, fun pts hc => by rw [h] at hc; cases hc⟩

/-- Witness for C7 on a concrete one-point track without timestamps. -/
theorem claim_C7_witness :
    chPresent (GPXData.mk [0] [0] none none).tstamp = false ∧
    gpx_write (GPXData.mk [0] [0] none none) true = Except.error missingTstampMsg :=
  ⟨rfl, (claim_C7 (GPXData.mk [0] [0] none none) rfl).1⟩

/-! ### Retiming loops (C8) -/

theorem retimeLoop_length (ts : List ℝ) (delta : ℕ → ℝ) (count : ℕ) :
    (retimeLoop ts delta count).length = ts.length := by
  unfold retimeLoop
  induction count with
  | zero => rfl
  | succ c ih =>
    rw [List.range_succ, List.foldl_append, List.foldl_cons, List.foldl_nil,
      List.length_set, ih]

theorem retimeLoop_unfold (ts : List ℝ) (delta : ℕ → ℝ) (c : ℕ) :
    retimeLoop ts delta (c + 1) =
      (retimeLoop ts delta c).set (c + 1)
        ((retimeLoop ts delta c).getD c 0 + delta (c + 1)) := by
  unfold retimeLoop
  rw [List.range_succ, List.foldl_append, List.foldl_cons, List.foldl_nil]

theorem retimeLoop_adjacent (ts : List ℝ) (delta : ℕ → ℝ) :
    ∀ count, count < ts.length → ∀ j, 1 ≤ j → j ≤ count →
      (retimeLoop ts delta count).getD j 0 =
        (retimeLoop ts delta count).getD (j - 1) 0 + delta j := by
  intro count
  induction count with
  | zero =>
    intro _ j h1 h2
    omega
  | succ c ih =>
    intro hlen j h1 h2
    have hLlen : (retimeLoop ts delta c).length = ts.length :=
      retimeLoop_length ts delta c
    rw [retimeLoop_unfold, getD_set, getD_set]
    by_cases hj : j = c + 1
    · subst hj
      rw [if_pos ⟨rfl, by omega⟩, if_neg (fun hc => by omega)]
      simp only [Nat.add_sub_cancel]
    · rw [if_neg (fun hc => hj hc.1.symm), if_neg (fun hc => by omega)]
      exact ih (by omega) j h1 (by omega)

theorem chain_of_adjacent (l : List ℝ) (f : ℕ → ℝ)
    (hf : ∀ j, 1 ≤ j → j < l.length → l.getD j 0 = l.getD (j - 1) 0 + f j)
    (hpos : ∀ j, 0 ≤ f j) : List.Chain' (· ≤ ·) l := by
  rw [List.chain'_iff_get]
  intro i hi
  have h := hf (i + 1) (by omega) (by omega)
  simp only [Nat.add_sub_cancel] at h
  simp only [List.get_eq_getElem]
  rw [← List.getD_eq_getElem _ 0 (by omega), ← List.getD_eq_getElem _ 0 (by omega), h]
  have := hpos (i + 1)
  linarith

theorem retimeLoop_chain (T : List ℝ) (delta : ℕ → ℝ) (hd : ∀ j, 0 ≤ delta j) :
    List.Chain' (· ≤ ·) (retimeLoop T delta (T.length - 1)) := by
  apply chain_of_adjacent _ delta _ hd
  intro j hj1 hjlen
  rw [retimeLoop_length] at hjlen
  exact retimeLoop_adjacent T delta (T.length - 1) (by omega) j hj1 (by omega)

theorem beginShift_length (ts : List ℝ) (b : Option ℝ) :
    (beginShift ts b).length = ts.length := by
  unfold beginShift
  cases b <;> simp

theorem velocityRetime_length (ts : List ℝ) (latlen : ℕ) (dist : List ℝ)
    (v : Option ℝ) : (velocityRetime ts latlen dist v).length = ts.length := by
  unfold velocityRetime
  cases v with
  | none => rfl
  | some v =>
    dsimp only
    split_ifs with h
    · exact retimeLoop_length _ _ _
    · rfl

/-- C8: after the timestamp-adjustment pipeline of `main` runs on a track
with timestamps present, where the constant-velocity retiming runs with
`v > 0` or the constant-interval retiming runs with `dt > 0` (the later
adjustment overwriting the earlier), the timestamp channel is
monotonically non-decreasing. -/
theorem claim_C8 (g : GPXData) (ts : List ℝ) (_hts : g.tstamp = some ts)
    (hlen : ts.length = g.lat.length)
    (begintime velocity intervaltime : Option ℝ)
    (hrun : (∃ v, velocity = some v ∧ 0 < v) ∨
      (∃ d, intervaltime = some d ∧ 0 < d)) :
    List.Chain' (· ≤ ·) (mainRetime ts g.lat.length
      (gpx_calculate_distance g true) begintime velocity intervaltime) := by
  have hT1 : (beginShift ts begintime).length = ts.length := beginShift_length ts begintime
  have hT2 : (velocityRetime (beginShift ts begintime) g.lat.length
      (gpx_calculate_distance g true) velocity).length = ts.length := by
    rw [velocityRetime_length, hT1]
  unfold mainRetime
  rcases hrun with ⟨v, hv, hvpos⟩ | ⟨d, hd, hdpos⟩
  · have hchain2 : List.Chain' (· ≤ ·) (velocityRetime (beginShift ts begintime)
        g.lat.length (gpx_calculate_distance g true) velocity) := by
      rw [hv]
      unfold velocityRetime
      dsimp only
      rw [if_pos hvpos]
      have hcnt : g.lat.length - 1 = (beginShift ts begintime).length - 1 := by
        rw [hT1, hlen]
      rw [hcnt]
      apply retimeLoop_chain
      intro j
      exact div_nonneg (gpx_calculate_distance_getD_nonneg g true j) hvpos.le
    unfold intervalRetime
    cases intervaltime with
    | none => exact hchain2
    | some d =>
      dsimp only
      split_ifs with hdp
      · have hcnt : g.lat.length - 1 = (velocityRetime (beginShift ts begintime)
            g.lat.length (gpx_calculate_distance g true) velocity).length - 1 := by
          rw [hT2, hlen]
        rw [hcnt]
        exact retimeLoop_chain _ _ (fun _ => hdp.le)
      · exact hchain2
  · rw [hd]
    unfold intervalRetime
    dsimp only
    rw [if_pos hdpos]
    have hcnt : g.lat.length - 1 = (velocityRetime (beginShift ts begintime)
        g.lat.length (gpx_calculate_distance g true) velocity).length - 1 := by
      rw [hT2, hlen]
    rw [hcnt]
    exact retimeLoop_chain _ _ (fun _ => hdpos.le)

/-- Witness for C8: a track whose raw timestamps decrease, retimed at
constant velocity 1. -/
theorem claim_C8_witness :
    (GPXData.mk [0, 0] [0, 90] none (some [5, 1])).tstamp = some [5, 1] ∧
    List.Chain' (· ≤ ·) (mainRetime [5, 1]
      (GPXData.mk [0, 0] [0, 90] none (some [5, 1])).lat.length
      (gpx_calculate_distance (GPXData.mk [0, 0] [0, 90] none (some [5, 1])) true)
      none (some 1) none) :=
  ⟨rfl, claim_C8 (GPXData.mk [0, 0] [0, 90] none (some [5, 1])) [5, 1] rfl
    (by simp) none (some 1) none (Or.inl ⟨1, rfl, by norm_num⟩)⟩

/-! ### The per-file data flow of `main` (C9) -/

/-- C9: the written output of the per-file flow is computed from the
duplicate-removed track before the timestamp adjustments run, so it does
not depend on the begin-time, velocity, or interval options; those
adjustments touch only the timestamp channel of the summary track, whose
other channels are unchanged. -/
theorem claim_C9 (g : GPXData) (distance : ℝ) (num : Option ℤ)
    (b b' v v' iv iv' : Option ℝ) (ws : Bool) :
    (mainFlow g distance num b v iv ws).1 = (mainFlow g distance num b' v' iv' ws).1 ∧
    (mainFlow g distance num b v iv ws).1 =
      gpx_write (gpx_interpolate (gpx_remove_duplicates g) distance num) ws ∧
    (mainFlow g distance num b v iv ws).2.lat = g.lat ∧
    (mainFlow g distance num b v iv ws).2.lon = g.lon ∧
    (mainFlow g distance num b v iv ws).2.ele = g.ele ∧
    (mainFlow g distance num b v iv ws).2.tstamp = g.tstamp.map
      (fun ts => mainRetime ts g.lat.length (gpx_calculate_distance g true) b v iv) :=
  ⟨rfl, rfl, rfl, rfl, rfl, rfl⟩

end GPX
